import Mathlib

/-!
Verification development for the ConfigurationCollector repository
(`main.go`).  The Go program drives prompt-delimited CLI sessions over
SSH or Telnet, with a worker pool, a retry controller with linear
backoff, and per-vendor command and prompt tables.

The definitions below are a shallow embedding of the relevant Go
functions.  Device text is modelled as `List Char` (`GoStr`); the Go
standard-library calls `strings.Contains`, `strings.ToLower`,
`strings.TrimSpace` and `strings.ReplaceAll` (single-character
patterns) are modelled by `goContains`, `goToLower`, `goTrim` and
`replAll`.  Network reads are modelled as a list of chunks, each chunk
carrying the bytes delivered by one `Read` call together with the
error value the call returned.  Timing (deadlines) is modelled by
fuel: one unit of fuel per poll iteration of a read loop.
-/

namespace Collector

/-- Device text: Go strings viewed as their character sequences. -/
abbrev GoStr := List Char

/-- Model of Go `strings.Contains s sub`: substring containment. -/
def goContains (s sub : GoStr) : Bool := decide (sub <:+: s)

/-- Model of Go `strings.ToLower` (per-character lowering). -/
def goToLower (s : GoStr) : GoStr := s.map Char.toLower

/-- Model of Go `strings.TrimSpace`: drop whitespace at both ends. -/
def goTrim (s : GoStr) : GoStr :=
  ((s.dropWhile Char.isWhitespace).reverse.dropWhile Char.isWhitespace).reverse

/-- Model of Go `strings.ReplaceAll` for a single-character pattern. -/
def replAll (old new : Char) (s : GoStr) : GoStr :=
  s.map fun c => if c = old then new else c

/-- `sanitize` from `main.go`: trim, then replace each of `:`, `/`,
`\`, and space by `_`, in that order. -/
def sanitize (s : GoStr) : GoStr :=
  replAll ' ' '_' (replAll '\\' '_' (replAll '/' '_' (replAll ':' '_' (goTrim s))))

/-- The transcript file name built in `runJob` (`main.go:461`):
`fmt.Sprintf("%s__%s__%s__%s__%s.txt", safeName, safeIP, vendor,
protocol, timestamp)` with `safeName`/`safeIP` the sanitized asset
name and address. -/
def jobFilename (name address : GoStr) (vendor protocol : String) (ts : GoStr) : GoStr :=
  sanitize name ++ "__".data ++ sanitize address ++ "__".data ++ vendor.data
    ++ "__".data ++ protocol.data ++ "__".data ++ ts ++ ".txt".data

/-- Error values produced by the embedded code paths.  `nilErr` is the
Go `nil` error value; `ctxCancelled` is `ctx.Err()`; `aggregate n
last` is the wrapping `fmt.Errorf("falhou apos %d tentativas: %w", n,
last)` of `runJobWithRetry`; `writeErr c` is the wrapping
`fmt.Errorf("write cmd %q: %w", c, err)` of `collectSSH`. -/
inductive GoErr where
  | nilErr
  | ctxCancelled
  | unknownVendor (vendor : String)
  | unknownProtocol (protocol : String)
  | writeErr (cmd : GoStr)
  | collectErr
  | aggregate (attempts : Nat) (last : GoErr)
deriving DecidableEq

/-- `commandsForVendor` from `main.go:467`: the per-vendor ordered
command list; unknown vendors yield the error
`vendor desconhecido: %q`. -/
def commandsForVendor (vendor : String) : Except GoErr (List GoStr) :=
  if vendor = "huawei" then
    .ok ["screen-length 0 temporary".data,
         "display version".data,
         "display license".data,
         "display current-configuration".data,
         "display interface brief".data,
         "display interface description".data,
         "display interface transceiver".data,
         "display eth-trunk brief".data,
         "display bgp peer".data,
         "display ospf peer".data,
         "display isis peer".data]
  else if vendor = "zte" then
    .ok ["terminal length 0".data,
         "show version".data,
         "show license".data,
         "show running-config".data,
         "show interface brief".data,
         "show interface description".data,
         "show interface transceiver".data,
         "show port-channel brief".data,
         "show bgp summary".data,
         "show ospf neighbor".data,
         "show isis neighbor".data]
  else
    .error (.unknownVendor vendor)

/-- `promptsForVendor` from `main.go:502`: the per-vendor prompt
terminator set.  Note the default branch returns a fallback list and
never fails. -/
def promptsForVendor (vendor : String) : List GoStr :=
  if vendor = "huawei" then ["<".data, ">".data, "]".data]
  else if vendor = "zte" then ["#".data, ">".data]
  else [">".data, "#".data, "$".data]

/-! ## Retry controller (`runJobWithRetry`, `main.go:397`)

The loop is modelled as a trace of timed events.  A step is one
observation point on the timeline: the `select` on `ctx.Done()`
consumes one step, the backoff `time.Sleep` one step, and one
invocation of `runJob` one step.  Cancellation is a step-indexed
predicate (the state of `ctx.Done()` at that step); the executor is a
function from the attempt index to the error `runJob` returned (with
`none` meaning success).  `time.Sleep` is not context-aware in Go, so
a sleep event is atomic and always carries its full nominal duration. -/

/-- One timed event of the retry loop: the cancellation check, the
backoff sleep (attempt index and duration in seconds), or one
invocation of the executor. -/
inductive REvent where
  | check (step : Nat)
  | sleep (step : Nat) (attemptIdx : Nat) (seconds : Nat)
  | attempt (step : Nat) (attemptIdx : Nat)
deriving DecidableEq

/-- Whether an event is an executor invocation. -/
def REvent.isAttempt : REvent → Bool
  | .attempt _ _ => true
  | _ => false

/-- The body of the `for attempt := 0; attempt <= maxRetries` loop of
`runJobWithRetry`.  `fuel` is the number of loop iterations still
allowed (`maxRetries + 1 - attempt`); when it reaches zero the loop
exits and the aggregate error naming `maxRetries + 1` attempts and
wrapping the last error is returned. -/
def retryAux (cancelled : Nat → Bool) (exec : Nat → Option GoErr) (maxRetries : Nat) :
    Nat → Nat → Nat → GoErr → List REvent × Option GoErr
  | 0, _, _, lastErr => ([], some (.aggregate (maxRetries + 1) lastErr))
  | fuel + 1, attempt, step, _lastErr =>
    if cancelled step then ([.check step], some .ctxCancelled)
    else if 0 < attempt then
      match exec attempt with
      | none =>
        ([.check step, .sleep (step + 1) attempt (attempt * 2), .attempt (step + 2) attempt],
         none)
      | some e =>
        let r := retryAux cancelled exec maxRetries fuel (attempt + 1) (step + 3) e
        (.check step :: .sleep (step + 1) attempt (attempt * 2)
           :: .attempt (step + 2) attempt :: r.1, r.2)
    else
      match exec attempt with
      | none => ([.check step, .attempt (step + 1) attempt], none)
      | some e =>
        let r := retryAux cancelled exec maxRetries fuel (attempt + 1) (step + 2) e
        (.check step :: .attempt (step + 1) attempt :: r.1, r.2)

/-- `runJobWithRetry` from `main.go:397`: run the loop from attempt 0,
step 0, with `lastErr` initially nil, for at most `maxRetries + 1`
iterations. -/
def runJobWithRetry (cancelled : Nat → Bool) (exec : Nat → Option GoErr)
    (maxRetries : Nat) : List REvent × Option GoErr :=
  retryAux cancelled exec maxRetries (maxRetries + 1) 0 0 .nilErr

/-! ## Single-job executor (`runJob`, `main.go:428`)

`runJob` checks cancellation, resolves the vendor command list (an
unknown vendor fails here, before any dial), resolves the prompt set,
dispatches on the protocol to `collectTelnet` / `collectSSH`, and on
success writes the transcript to the sanitized file path.  The two
collect functions are abstracted as a parameter returning the actions
they performed (every dial is such an action), the transcript, and an
optional error. -/

/-- Observable side effects of one `runJob` invocation. -/
inductive JAction where
  | connect (protocol : String)
  | writeFile (filename : GoStr)
deriving DecidableEq

/-- Outcome of a collect function: actions performed (dials among
them), transcript text, optional error. -/
structure CollectOut where
  actions : List JAction
  transcript : GoStr
  err : Option GoErr

/-- `runJob` from `main.go:428`.  `cancelledNow` is the state of
`ctx.Done()` at entry; `collect` abstracts `collectTelnet` and
`collectSSH` (selected by the protocol string passed to it). -/
def runJob (cancelledNow : Bool) (vendor protocol : String) (name address ts : GoStr)
    (collect : String → List GoStr → List GoStr → CollectOut) :
    List JAction × Option GoErr :=
  if cancelledNow then ([], some .ctxCancelled)
  else
    match commandsForVendor vendor with
    | .error e => ([], some e)
    | .ok cmds =>
      let prompts := promptsForVendor vendor
      if protocol = "telnet" then
        let r := collect "telnet" cmds prompts
        match r.err with
        | some e => (r.actions, some e)
        | none =>
          (r.actions ++ [.writeFile (jobFilename name address vendor protocol ts)], none)
      else if protocol = "ssh" then
        let r := collect "ssh" cmds prompts
        match r.err with
        | some e => (r.actions, some e)
        | none =>
          (r.actions ++ [.writeFile (jobFilename name address vendor protocol ts)], none)
      else ([], some (.unknownProtocol protocol))

/-! ## Command loops of `collectTelnet` / `collectSSH`

The per-command loops (`main.go:555-588` and `main.go:671-702`).  Both
check cancellation at each iteration, skip blank commands, append the
`==== CMD: ... ====` delimiter header, write the command, and read
until a prompt.  They differ on a failed write: the Telnet loop logs
and continues with the next command, the SSH loop returns the partial
transcript and a wrapped write error.  On a failed read both append
whatever was captured and continue.  The device is abstracted by
`writeOk` (whether the write of the command at a given list position
succeeds) and `readRes` (the text captured by the read after that
command); cancellation by a position-indexed predicate. -/

/-- The `==== CMD: ... ====` delimiter header appended before each
command. -/
def cmdHeader (c : GoStr) : GoStr := "\n\n==== CMD: ".data ++ c ++ " ====\n".data

/-- One observable event of a command loop. -/
inductive CmdEvent where
  | cancelledAt (k : Nat)
  | sent (k : Nat) (cmd : GoStr)
  | writeFailed (k : Nat) (cmd : GoStr)
deriving DecidableEq

/-- The command loop of `collectTelnet` (`main.go:555-588`): a failed
write is logged and the command skipped; the loop continues. -/
def telnetCmdLoop (cancelled writeOk : Nat → Bool) (readRes : Nat → GoStr) :
    List GoStr → Nat → GoStr → List CmdEvent × GoStr × Option GoErr
  | [], _, acc => ([], acc, none)
  | cmd :: rest, k, acc =>
    if cancelled k then ([.cancelledAt k], acc, some .ctxCancelled)
    else
      let c := goTrim cmd
      if c = [] then telnetCmdLoop cancelled writeOk readRes rest (k + 1) acc
      else
        let acc1 := acc ++ cmdHeader c
        if writeOk k then
          let r := telnetCmdLoop cancelled writeOk readRes rest (k + 1) (acc1 ++ readRes k)
          (.sent k c :: r.1, r.2)
        else
          let r := telnetCmdLoop cancelled writeOk readRes rest (k + 1) acc1
          (.writeFailed k c :: r.1, r.2)

/-- The command loop of `collectSSH` (`main.go:671-702`): a failed
write returns the partial transcript and the wrapped write error,
aborting the job. -/
def sshCmdLoop (cancelled writeOk : Nat → Bool) (readRes : Nat → GoStr) :
    List GoStr → Nat → GoStr → List CmdEvent × GoStr × Option GoErr
  | [], _, acc => ([], acc, none)
  | cmd :: rest, k, acc =>
    if cancelled k then ([.cancelledAt k], acc, some .ctxCancelled)
    else
      let c := goTrim cmd
      if c = [] then sshCmdLoop cancelled writeOk readRes rest (k + 1) acc
      else
        let acc1 := acc ++ cmdHeader c
        if writeOk k then
          let r := sshCmdLoop cancelled writeOk readRes rest (k + 1) (acc1 ++ readRes k)
          (.sent k c :: r.1, r.2)
        else ([.writeFailed k c], acc1, some (.writeErr c))

/-! ## Read loops (`waitForString`, `readTelnetOutput`,
`readUntilPrompt`, `main.go:763-881`)

A network stream is a list of chunks; each chunk carries the bytes one
`Read` call delivered together with the error it returned.  Fuel
models the overall deadline: one unit per poll iteration; exhausted
fuel is the `time.Now().After(deadline)` branch.  An exhausted chunk
list stands for a reader that keeps returning read-deadline timeouts.
All three loops append delivered bytes to the accumulation buffer and
then search every pattern over the whole buffer (only when the read
delivered at least one byte, matching the `n > 0` guard). -/

/-- The error value one `Read` call returned. -/
inductive ReadErr where
  | eof
  | timeout
  | other
deriving DecidableEq

/-- One `Read` call result: delivered bytes and returned error. -/
structure Chunk where
  data : GoStr
  err : Option ReadErr
deriving DecidableEq

/-- Errors a read loop can return. -/
inductive RUErr where
  | ctxCancelled
  | timeoutPrompt
  | readFailed
deriving DecidableEq

/-- Case-sensitive prompt search of `readUntilPrompt` and
`readTelnetOutput`: some prompt occurs anywhere in the buffer. -/
def promptFound (prompts : List GoStr) (buf : GoStr) : Bool :=
  prompts.any fun p => goContains buf p

/-- Case-insensitive pattern search of `waitForString`: both sides are
lowered before the containment test. -/
def patternFoundCI (patterns : List GoStr) (buf : GoStr) : Bool :=
  patterns.any fun p => goContains (goToLower buf) (goToLower p)

/-- `readUntilPrompt` from `main.go:834`: check cancellation, check
the deadline, read a chunk, append delivered bytes, search the whole
buffer for a prompt (returning the whole buffer on a match), then
dispatch on the read error: end of stream returns the buffer with no
error, a read-deadline timeout continues polling, any other error is
returned with the partial buffer. -/
def readUntilPrompt (cancelled : Nat → Bool) (prompts : List GoStr) :
    Nat → Nat → List Chunk → GoStr → GoStr × Option RUErr
  | 0, _, _, buf => (buf, some .timeoutPrompt)
  | fuel + 1, i, chunks, buf =>
    if cancelled i then (buf, some .ctxCancelled)
    else
      match chunks with
      | [] => readUntilPrompt cancelled prompts fuel (i + 1) [] buf
      | ch :: rest =>
        let buf1 := buf ++ ch.data
        if ch.data ≠ [] ∧ promptFound prompts buf1 then (buf1, none)
        else
          match ch.err with
          | some .eof => (buf1, none)
          | some .timeout => readUntilPrompt cancelled prompts fuel (i + 1) rest buf1
          | some .other => (buf1, some .readFailed)
          | none => readUntilPrompt cancelled prompts fuel (i + 1) rest buf1

/-- `readTelnetOutput` from `main.go:798`: same loop without the
cancellation check; any non-timeout read error (end of stream
included) returns the partial buffer with no error. -/
def readTelnetOutput (prompts : List GoStr) :
    Nat → List Chunk → GoStr → GoStr × Option RUErr
  | 0, _, buf => (buf, some .timeoutPrompt)
  | fuel + 1, chunks, buf =>
    match chunks with
    | [] => readTelnetOutput prompts fuel [] buf
    | ch :: rest =>
      let buf1 := buf ++ ch.data
      if ch.data ≠ [] ∧ promptFound prompts buf1 then (buf1, none)
      else
        match ch.err with
        | some .timeout => readTelnetOutput prompts fuel rest buf1
        | some _ => (buf1, none)
        | none => readTelnetOutput prompts fuel rest buf1

/-- `waitForString` from `main.go:763` (the Telnet login/password
handshake): case-insensitive search; any non-timeout read error is
returned as a failure. -/
def waitForString (patterns : List GoStr) :
    Nat → List Chunk → GoStr → Option RUErr
  | 0, _, _ => some .timeoutPrompt
  | fuel + 1, chunks, buf =>
    match chunks with
    | [] => waitForString patterns fuel [] buf
    | ch :: rest =>
      let buf1 := buf ++ ch.data
      if ch.data ≠ [] ∧ patternFoundCI patterns buf1 then none
      else
        match ch.err with
        | some .timeout => waitForString patterns fuel rest buf1
        | some _ => some .readFailed
        | none => waitForString patterns fuel rest buf1

/-- Concatenation of the bytes a chunk list delivers. -/
def chunksData : List Chunk → GoStr
  | [] => []
  | c :: l => c.data ++ chunksData l

/-! ## Job producer (`main` enqueue loop, `main.go:197-268`)

Per-asset resolution of credentials, protocol and port, exactly as in
the enqueue loop: inactive assets and assets without a resolvable
password produce no job; otherwise the protocol defaults to `ssh` and
a zero port is filled from the protocol default before enqueue. -/

/-- Model of Go `strings.TrimSpace` on `String`. -/
def strTrim (s : String) : String := ⟨goTrim s.data⟩

/-- Model of Go `strings.ToLower` on `String`. -/
def strToLower (s : String) : String := ⟨goToLower s.data⟩

/-- The fields of `Group` the enqueue loop reads. -/
structure GroupM where
  vendor : String
  username : String
  password : String
  passwordEnv : String
deriving DecidableEq

/-- The fields of `Asset` the enqueue loop reads. -/
structure AssetM where
  name : String
  address : String
  port : Nat
  protocol : String
  username : String
  password : String
  passwordEnv : String
  active : Option Bool
deriving DecidableEq

/-- `Asset.IsActive` from `main.go:367`: nil defaults to active. -/
def isActive (a : AssetM) : Bool := a.active.getD true

/-- `Group.GetPassword` from `main.go:349`; `env` models
`os.Getenv`. -/
def groupPassword (env : String → String) (g : GroupM) : String :=
  if g.passwordEnv ≠ "" ∧ env g.passwordEnv ≠ "" then env g.passwordEnv else g.password

/-- `Asset.GetPassword` from `main.go:358`. -/
def assetPassword (env : String → String) (a : AssetM) : String :=
  if a.passwordEnv ≠ "" ∧ env a.passwordEnv ≠ "" then env a.passwordEnv else a.password

/-- The resolved fields of a `Job` value as enqueued. -/
structure JobM where
  vendor : String
  username : String
  password : String
  name : String
  address : String
  port : Nat
  protocol : String
deriving DecidableEq

/-- One iteration of the enqueue loop (`main.go:201-267`) for a single
asset: `none` when the asset is skipped (inactive, or no password),
otherwise the enqueued job. -/
def resolveJob (env : String → String) (g : GroupM) (a : AssetM) : Option JobM :=
  if ¬ isActive a then none
  else
    let username := if a.username = "" then g.username else a.username
    let password0 := assetPassword env a
    let password := if password0 = "" then groupPassword env g else password0
    if password = "" then none
    else
      let protocol0 := strToLower (strTrim a.protocol)
      let protocol := if protocol0 = "" then "ssh" else protocol0
      let port := if a.port = 0 then (if protocol = "telnet" then 23 else 22) else a.port
      some { vendor := strToLower (strTrim g.vendor), username, password,
             name := a.name, address := a.address, port, protocol }

/-! ## Theorems -/

/-- C2 counterexample: for the non-enumerated vendor string `"cisco"`,
`promptsForVendor` does not fail with an unknown-vendor error: it has
no error outcome at all and returns the non-empty fallback list
`[">", "#", "$"]`.  (Only `commandsForVendor` fails.)  This refutes
the claim that for every other vendor string both functions fail. -/
theorem c2_counterexample :
    promptsForVendor "cisco" = [">".data, "#".data, "$".data]
    ∧ promptsForVendor "cisco" ≠ []
    ∧ commandsForVendor "cisco" = .error (.unknownVendor "cisco") := by
  refine ⟨by decide, by decide, rfl⟩

/-- C2 (amended): for the vendors of the closed enumeration
(`"huawei"`, `"zte"`) both `commandsForVendor` and `promptsForVendor`
return non-empty results; for every other vendor string,
`commandsForVendor` fails with the unknown-vendor error and that
failure occurs before any connection is attempted (`runJob` returns it
without invoking the collect function, for every collect function),
while `promptsForVendor` never fails: it returns the non-empty
fallback list `[">", "#", "$"]`. -/
theorem c2_vendor_tables :
    (∀ v : String, v = "huawei" ∨ v = "zte" →
      (∃ cmds, commandsForVendor v = .ok cmds ∧ cmds ≠ []) ∧ promptsForVendor v ≠ [])
    ∧ (∀ v : String, v ≠ "huawei" → v ≠ "zte" →
        commandsForVendor v = .error (.unknownVendor v)
        ∧ promptsForVendor v = [">".data, "#".data, "$".data]
        ∧ promptsForVendor v ≠ []
        ∧ ∀ (protocol : String) (name address ts : GoStr)
            (collect : String → List GoStr → List GoStr → CollectOut),
            runJob false v protocol name address ts collect
              = ([], some (.unknownVendor v))) := by
  constructor
  · rintro v (rfl | rfl)
    · exact ⟨⟨_, rfl, by decide⟩, by decide⟩
    · exact ⟨⟨_, rfl, by decide⟩, by decide⟩
  · intro v h1 h2
    refine ⟨?_, ?_, ?_, ?_⟩
    · simp [commandsForVendor, h1, h2]
    · simp [promptsForVendor, h1, h2]
    · simp [promptsForVendor, h1, h2]
    · intro protocol name address ts collect
      simp [runJob, commandsForVendor, h1, h2]

/-- Witness for C2: instantiates the amended theorem at `"huawei"` and
at `"cisco"`. -/
theorem c2_vendor_tables_witness :
    ((∃ cmds, commandsForVendor "huawei" = .ok cmds ∧ cmds ≠ [])
      ∧ promptsForVendor "huawei" ≠ [])
    ∧ commandsForVendor "cisco" = .error (.unknownVendor "cisco") :=
  ⟨c2_vendor_tables.1 "huawei" (Or.inl rfl),
   (c2_vendor_tables.2 "cisco" (by decide) (by decide)).1⟩

/-- C8: if cancellation is already signaled before the job starts, the
retry controller returns the cancellation condition verbatim (the bare
`ctx.Err()` value, not the aggregate wrapper) after the single
cancellation check, with no executor invocation; and `runJob` entered
with cancellation signaled returns the cancellation condition verbatim
with no action performed (in particular no connection), for every
collect function. -/
theorem c8_precancelled_no_attempt :
    (∀ (cancelled : Nat → Bool) (exec : Nat → Option GoErr) (maxRetries : Nat),
      cancelled 0 = true →
      runJobWithRetry cancelled exec maxRetries = ([.check 0], some .ctxCancelled))
    ∧ ∀ (vendor protocol : String) (name address ts : GoStr)
        (collect : String → List GoStr → List GoStr → CollectOut),
        runJob true vendor protocol name address ts collect = ([], some .ctxCancelled) := by
  constructor
  · intro cancelled exec maxRetries h
    simp [runJobWithRetry, retryAux, h]
  · intro vendor protocol name address ts collect
    simp [runJob]

/-- Witness for C8: cancellation signaled from the start, one job. -/
theorem c8_precancelled_no_attempt_witness :
    runJobWithRetry (fun _ => true) (fun _ => none) 0 = ([.check 0], some .ctxCancelled)
    ∧ runJob true "huawei" "ssh" [] [] [] (fun _ _ _ => ⟨[], [], none⟩)
        = ([], some .ctxCancelled) :=
  ⟨c8_precancelled_no_attempt.1 (fun _ => true) (fun _ => none) 0 rfl,
   c8_precancelled_no_attempt.2 "huawei" "ssh" [] [] [] (fun _ _ _ => ⟨[], [], none⟩)⟩

/-- C9: every enqueued job has a non-zero resolved port: a configured
port of 0 is replaced by the protocol default (23 for telnet, 22
otherwise), and a non-zero configured port is kept unchanged. -/
theorem c9_resolved_port_never_zero :
    ∀ (env : String → String) (g : GroupM) (a : AssetM) (j : JobM),
      resolveJob env g a = some j →
      j.port ≠ 0
      ∧ (a.port = 0 → j.port = (if j.protocol = "telnet" then 23 else 22))
      ∧ (a.port ≠ 0 → j.port = a.port) := by
  intro env g a j h
  simp only [resolveJob] at h
  repeat' split at h
  all_goals first
    | exact Option.noConfusion h
    | (rw [Option.some.injEq] at h
       subst h
       refine ⟨?_, fun h0 => ?_, fun h0 => ?_⟩ <;> simp_all)

/-- Witness for C9: a telnet asset with configured port 0 resolves to
port 23. -/
theorem c9_resolved_port_never_zero_witness :
    (23 : Nat) ≠ 0
    ∧ ((0 : Nat) = 0 →
        (23 : Nat) = (if ("telnet" : String) = "telnet" then 23 else 22))
    ∧ ((0 : Nat) ≠ 0 → (23 : Nat) = 0) :=
  c9_resolved_port_never_zero (fun _ => "")
    ⟨"huawei", "admin", "secret", ""⟩
    ⟨"sw1", "10.0.0.1", 0, "telnet", "", "", "", none⟩
    ⟨"huawei", "admin", "secret", "sw1", "10.0.0.1", 23, "telnet"⟩
    (by decide)

/-- `sanitize` is the per-character replacement of `:`, `/`, `\` and
space by `_` on the trimmed input. -/
lemma sanitize_eq_map (s : GoStr) :
    sanitize s
      = (goTrim s).map
          (fun c => if c = ':' ∨ c = '/' ∨ c = '\\' ∨ c = ' ' then '_' else c) := by
  simp only [sanitize, replAll, List.map_map]
  refine List.map_congr_left fun c _ => ?_
  by_cases h1 : c = ':' <;> by_cases h2 : c = '/' <;> by_cases h3 : c = '\\'
    <;> by_cases h4 : c = ' ' <;> simp_all [Function.comp]

/-- No output character of `sanitize` is a path separator. -/
lemma sanitize_no_separator (s : GoStr) :
    ∀ c ∈ sanitize s, c ≠ '/' ∧ c ≠ '\\' := by
  intro c hc
  rw [sanitize_eq_map] at hc
  obtain ⟨d, _, hd⟩ := List.mem_map.mp hc
  by_cases h : d = ':' ∨ d = '/' ∨ d = '\\' ∨ d = ' '
  · rw [if_pos h] at hd
    subst hd
    exact ⟨by decide, by decide⟩
  · rw [if_neg h] at hd
    subst hd
    push_neg at h
    exact ⟨h.2.1, h.2.2.1⟩

/-- C10: for arbitrary asset name and address, the transcript file
name stays directly inside the output directory: `sanitize` maps the
characters `:`, `/`, `\` and space to `_` (and touches nothing else),
so the file name built by `runJob` contains no `/` and no `\`, and its
length rules out the `.` and `..` path components; joined to `BaseDir`
it therefore names a direct child of the output directory.  Vendor and
protocol are constrained to the values reachable at that code point
(the vendor passed `commandsForVendor`, the protocol the dispatch
switch), and the timestamp is an `HHMMSS` digit string. -/
theorem c10_filename_stays_in_basedir :
    ∀ (name address ts : GoStr) (vendor protocol : String),
      (vendor = "huawei" ∨ vendor = "zte") →
      (protocol = "ssh" ∨ protocol = "telnet") →
      (∀ c ∈ ts, c.isDigit = true) →
      ('/' ∉ jobFilename name address vendor protocol ts
        ∧ '\\' ∉ jobFilename name address vendor protocol ts)
      ∧ 12 ≤ (jobFilename name address vendor protocol ts).length
      ∧ jobFilename name address vendor protocol ts ≠ ".".data
      ∧ jobFilename name address vendor protocol ts ≠ "..".data
      ∧ ∀ s : GoStr, sanitize s
          = (goTrim s).map
              (fun c => if c = ':' ∨ c = '/' ∨ c = '\\' ∨ c = ' ' then '_' else c) := by
  intro name address ts vendor protocol hv hp hts
  have hlen : 12 ≤ (jobFilename name address vendor protocol ts).length := by
    rcases hv with rfl | rfl <;> rcases hp with rfl | rfl <;>
      simp [jobFilename, List.length_append] <;> omega
  have hsep : ∀ c : Char, c = '/' ∨ c = '\\' →
      c ∉ jobFilename name address vendor protocol ts := by
    intro c hc hmem
    simp only [jobFilename, List.mem_append] at hmem
    rcases hmem with (((((((((hm | hm) | hm) | hm) | hm) | hm) | hm) | hm) | hm) | hm)
    · have h := sanitize_no_separator name c hm
      rcases hc with rfl | rfl
      · exact h.1 rfl
      · exact h.2 rfl
    · rcases hc with rfl | rfl <;> revert hm <;> decide
    · have h := sanitize_no_separator address c hm
      rcases hc with rfl | rfl
      · exact h.1 rfl
      · exact h.2 rfl
    · rcases hc with rfl | rfl <;> revert hm <;> decide
    · rcases hv with rfl | rfl <;> rcases hc with rfl | rfl <;> revert hm <;> decide
    · rcases hc with rfl | rfl <;> revert hm <;> decide
    · rcases hp with rfl | rfl <;> rcases hc with rfl | rfl <;> revert hm <;> decide
    · rcases hc with rfl | rfl <;> revert hm <;> decide
    · have h := hts c hm
      rcases hc with rfl | rfl <;> simp at h
    · rcases hc with rfl | rfl <;> revert hm <;> decide
  refine ⟨⟨hsep '/' (Or.inl rfl), hsep '\\' (Or.inr rfl)⟩, hlen, ?_, ?_,
    fun s => sanitize_eq_map s⟩
  · intro hEq
    have := congrArg List.length hEq
    simp at this
    omega
  · intro hEq
    have := congrArg List.length hEq
    simp at this
    omega

/-- Witness for C10: a name containing `/`, `\`, `:` and space, a
huawei ssh job, timestamp `150405`. -/
theorem c10_filename_stays_in_basedir_witness :
    ('/' ∉ jobFilename "a b:c/d\\e".data "10.0.0.1".data "huawei" "ssh" "150405".data
      ∧ '\\' ∉ jobFilename "a b:c/d\\e".data "10.0.0.1".data "huawei" "ssh" "150405".data)
    ∧ 12 ≤ (jobFilename "a b:c/d\\e".data "10.0.0.1".data "huawei" "ssh" "150405".data).length
    ∧ jobFilename "a b:c/d\\e".data "10.0.0.1".data "huawei" "ssh" "150405".data ≠ ".".data
    ∧ jobFilename "a b:c/d\\e".data "10.0.0.1".data "huawei" "ssh" "150405".data ≠ "..".data
    ∧ ∀ s : GoStr, sanitize s
        = (goTrim s).map
            (fun c => if c = ':' ∨ c = '/' ∨ c = '\\' ∨ c = ' ' then '_' else c) :=
  c10_filename_stays_in_basedir "a b:c/d\\e".data "10.0.0.1".data "150405".data
    "huawei" "ssh" (Or.inl rfl) (Or.inl rfl) (by decide)

/-- Number of executor invocations recorded in a retry trace. -/
def countAttempts (tr : List REvent) : Nat := (tr.filter REvent.isAttempt).length

/-- With no cancellation and an always-failing executor, the retry
loop performs exactly one executor invocation per remaining iteration
and exits with the aggregate error naming `maxRetries + 1` attempts
and wrapping the error of the last attempt. -/
lemma retryAux_all_fail (f : Nat → GoErr) (maxRetries : Nat) :
    ∀ (fuel attempt step : Nat) (lastErr : GoErr),
      attempt + fuel = maxRetries + 1 → 0 < fuel →
      countAttempts
          (retryAux (fun _ => false) (fun i => some (f i)) maxRetries fuel attempt step lastErr).1
        = fuel
      ∧ (retryAux (fun _ => false) (fun i => some (f i)) maxRetries fuel attempt step lastErr).2
        = some (.aggregate (maxRetries + 1) (f maxRetries)) := by
  intro fuel
  induction fuel with
  | zero => omega
  | succ n ih =>
    intro attempt step lastErr hsum _
    rcases Nat.eq_zero_or_pos n with hn | hn
    · subst hn
      have ha : attempt = maxRetries := by omega
      by_cases h0 : 0 < attempt
      · rw [ha] at h0
        simp [retryAux, h0, countAttempts, REvent.isAttempt, ha]
      · rw [ha] at h0
        simp [retryAux, h0, countAttempts, REvent.isAttempt, ha]
    · have hrec := ih (attempt + 1) (step + (if 0 < attempt then 3 else 2)) (f attempt)
        (by omega) hn
      by_cases h0 : 0 < attempt
      · simp only [h0, if_true] at hrec
        simp only [retryAux, Bool.false_eq_true, if_false, h0, if_true]
        simp only [countAttempts] at hrec ⊢
        simp [List.filter, REvent.isAttempt, hrec.1, hrec.2]
      · simp only [h0, if_false] at hrec
        simp only [retryAux, Bool.false_eq_true, if_false, h0]
        simp only [countAttempts] at hrec ⊢
        simp [List.filter, REvent.isAttempt, hrec.1, hrec.2]

/-- C4: with `maxRetries = N`, an executor failing on every invocation
and cancellation never signaled, the retry controller invokes the
executor exactly `N + 1` times and returns the aggregate error naming
`N + 1` attempts and wrapping the error of the last invocation. -/
theorem c4_retry_exhaustion :
    ∀ (maxRetries : Nat) (f : Nat → GoErr),
      countAttempts
          (runJobWithRetry (fun _ => false) (fun i => some (f i)) maxRetries).1
        = maxRetries + 1
      ∧ (runJobWithRetry (fun _ => false) (fun i => some (f i)) maxRetries).2
        = some (.aggregate (maxRetries + 1) (f maxRetries)) := by
  intro maxRetries f
  exact retryAux_all_fail f maxRetries (maxRetries + 1) 0 0 .nilErr (by omega) (by omega)

/-- Every backoff sleep in a retry trace has its full nominal duration
`attemptIdx * 2` seconds, occurs only before a retry (`attemptIdx`
positive, never before the first attempt), and was entered only after
a cancellation check that observed no cancellation one step earlier. -/
lemma retryAux_sleep_shape (cancelled : Nat → Bool) (exec : Nat → Option GoErr)
    (maxRetries : Nat) :
    ∀ (fuel attempt step0 : Nat) (lastErr : GoErr) (step i d : Nat),
      REvent.sleep step i d
          ∈ (retryAux cancelled exec maxRetries fuel attempt step0 lastErr).1 →
      d = i * 2 ∧ 0 < i ∧ cancelled (step - 1) = false := by
  intro fuel
  induction fuel with
  | zero =>
    intro attempt step0 lastErr step i d h
    simp [retryAux] at h
  | succ n ih =>
    intro attempt step0 lastErr step i d h
    by_cases hc : cancelled step0
    · simp [retryAux, hc] at h
    · by_cases h0 : 0 < attempt
      · rcases hexec : exec attempt with _ | e
        all_goals
          simp only [retryAux, hc, Bool.false_eq_true, if_false, h0, if_true, hexec,
            List.mem_cons, List.mem_singleton] at h
        · rcases h with h | h | h
          · exact absurd h (by simp)
          · obtain ⟨h1, h2, h3⟩ := REvent.sleep.inj h
            subst h1; subst h2; subst h3
            refine ⟨rfl, h0, ?_⟩
            simpa using Bool.eq_false_iff.mpr hc
          · exact absurd h (by simp)
        · rcases h with h | h | h | h
          · exact absurd h (by simp)
          · obtain ⟨h1, h2, h3⟩ := REvent.sleep.inj h
            subst h1; subst h2; subst h3
            refine ⟨rfl, h0, ?_⟩
            simpa using Bool.eq_false_iff.mpr hc
          · exact absurd h (by simp)
          · exact ih (attempt + 1) (step0 + 3) e step i d h
      · rcases hexec : exec attempt with _ | e
        all_goals
          simp only [retryAux, hc, Bool.false_eq_true, if_false, h0, List.mem_cons,
            List.mem_singleton, hexec] at h
        · rcases h with h | h
          · exact absurd h (by simp)
          · exact absurd h (by simp)
        · rcases h with h | h | h
          · exact absurd h (by simp)
          · exact absurd h (by simp)
          · exact ih (attempt + 1) (step0 + 2) e step i d h

/-- C3 counterexample: the backoff wait is not aborted when
cancellation is signaled.  The Go loop checks `ctx.Done()` only at the
top of each iteration and then calls `time.Sleep(backoff)`, which is
not context-aware.  Here cancellation is raised at step 3 (after the
attempt-1 cancellation check at step 2 passed): the trace still
records the backoff sleep entered at step 3 at its full nominal
duration of 2 seconds, so a backoff wait does run to its nominal
duration after cancellation is raised. -/
theorem c3_backoff_counterexample :
    REvent.sleep 3 1 2
        ∈ (runJobWithRetry (fun s => decide (3 ≤ s)) (fun _ => some .collectErr) 1).1
      ∧ (fun s : Nat => decide (3 ≤ s)) 3 = true := by
  constructor
  · decide
  · decide

/-- C3 (amended): before retry attempt `i > 0` the controller sleeps
the full `i * 2` seconds (no sleep precedes the first attempt), and a
backoff is entered only when the cancellation check one step earlier
observed no cancellation; once signaled at a check, no further backoff
or attempt occurs.  The sleep itself, however, is Go `time.Sleep`: it
is not interruptible, so cancellation signaled after that check does
not shorten the wait. -/
theorem c3_backoff_shape :
    ∀ (cancelled : Nat → Bool) (exec : Nat → Option GoErr) (maxRetries step i d : Nat),
      REvent.sleep step i d ∈ (runJobWithRetry cancelled exec maxRetries).1 →
      d = i * 2 ∧ 0 < i ∧ cancelled (step - 1) = false :=
  fun cancelled exec maxRetries step i d h =>
    retryAux_sleep_shape cancelled exec maxRetries (maxRetries + 1) 0 0 .nilErr step i d h

/-- Witness for C3: the sleep before attempt 1 in a two-attempt run
with no cancellation. -/
theorem c3_backoff_shape_witness :
    (2 : Nat) = 1 * 2 ∧ (0 : Nat) < 1 ∧ (fun _ : Nat => false) (3 - 1) = false :=
  c3_backoff_shape (fun _ => false) (fun _ => some .collectErr) 1 3 1 2 (by decide)

/-- C1 counterexample: on the SSH path a write failure does abort the
whole job.  With two commands and a device refusing the first write,
`collectSSH`s command loop returns immediately with the wrapped write
error; the second command is never processed (its event is absent from
the trace).  This refutes the claim that a write failure never aborts
the job on either path. -/
theorem c1_counterexample :
    (sshCmdLoop (fun _ => false) (fun _ => false) (fun _ => [])
        ["a".data, "b".data] 0 []).2.2 = some (.writeErr ['a'])
    ∧ (sshCmdLoop (fun _ => false) (fun _ => false) (fun _ => [])
        ["a".data, "b".data] 0 []).1 = [.writeFailed 0 ['a']] := by
  refine ⟨by decide, by decide⟩

/-- C1 (amended): with cancellation never signaled, the Telnet command
loop never fails — a failed write is skipped and every non-blank
command is still processed (each one leaves a sent or write-failed
event at its position) — whereas the SSH command loop succeeds exactly
when the write of every non-blank command succeeds: a single write
failure aborts the SSH job with an error. -/
theorem c1_write_failure_behavior :
    ∀ (writeOk : Nat → Bool) (readRes : Nat → GoStr) (cmds : List GoStr)
      (k : Nat) (acc : GoStr),
      ((telnetCmdLoop (fun _ => false) writeOk readRes cmds k acc).2.2 = none
        ∧ ∀ j, j < cmds.length → goTrim (cmds.getD j []) ≠ [] →
            CmdEvent.sent (k + j) (goTrim (cmds.getD j []))
                ∈ (telnetCmdLoop (fun _ => false) writeOk readRes cmds k acc).1
              ∨ CmdEvent.writeFailed (k + j) (goTrim (cmds.getD j []))
                ∈ (telnetCmdLoop (fun _ => false) writeOk readRes cmds k acc).1)
      ∧ ((sshCmdLoop (fun _ => false) writeOk readRes cmds k acc).2.2 = none
          ↔ ∀ j, j < cmds.length → goTrim (cmds.getD j []) ≠ [] → writeOk (k + j) = true) := by
  intro writeOk readRes cmds
  induction cmds with
  | nil =>
    intro k acc
    refine ⟨⟨rfl, fun j hj => absurd hj (by simp)⟩, ?_⟩
    simp [sshCmdLoop]
  | cons cmd rest ih =>
    intro k acc
    by_cases hb : goTrim cmd = []
    · refine ⟨⟨?_, ?_⟩, ?_⟩
      · simpa [telnetCmdLoop, hb] using (ih (k + 1) acc).1.1
      · intro j hj hne
        match j with
        | 0 => exact absurd hne (by simpa using hb)
        | j + 1 =>
          have := (ih (k + 1) acc).1.2 j (by simpa using hj) (by simpa using hne)
          simpa [telnetCmdLoop, hb, Nat.add_assoc, Nat.add_comm 1 j] using this
      · rw [show sshCmdLoop (fun _ => false) writeOk readRes (cmd :: rest) k acc
            = sshCmdLoop (fun _ => false) writeOk readRes rest (k + 1) acc by
              simp [sshCmdLoop, hb]]
        rw [(ih (k + 1) acc).2]
        constructor
        · intro h j hj hne
          match j with
          | 0 => exact absurd hne (by simpa using hb)
          | j + 1 =>
            have := h j (by simpa using hj) (by simpa using hne)
            simpa [Nat.add_assoc, Nat.add_comm 1 j] using this
        · intro h j hj hne
          have := h (j + 1) (by simpa using hj) (by simpa using hne)
          simpa [Nat.add_assoc, Nat.add_comm 1 j] using this
    · by_cases hw : writeOk k
      · refine ⟨⟨?_, ?_⟩, ?_⟩
        · simpa [telnetCmdLoop, hb, hw] using
            (ih (k + 1) (acc ++ cmdHeader (goTrim cmd) ++ readRes k)).1.1
        · intro j hj hne
          match j with
          | 0 => exact Or.inl (by simp [telnetCmdLoop, hb, hw])
          | j + 1 =>
            have := (ih (k + 1) (acc ++ cmdHeader (goTrim cmd) ++ readRes k)).1.2 j
              (by simpa using hj) (by simpa using hne)
            rcases this with h | h
            · exact Or.inl (by
                simp only [telnetCmdLoop, hb, hw, if_false, if_true, Bool.false_eq_true,
                  ite_false, List.mem_cons]
                right
                simpa [Nat.add_assoc, Nat.add_comm 1 j] using h)
            · exact Or.inr (by
                simp only [telnetCmdLoop, hb, hw, if_false, if_true, Bool.false_eq_true,
                  ite_false, List.mem_cons]
                right
                simpa [Nat.add_assoc, Nat.add_comm 1 j] using h)
        · rw [show (sshCmdLoop (fun _ => false) writeOk readRes (cmd :: rest) k acc).2.2
              = (sshCmdLoop (fun _ => false) writeOk readRes rest (k + 1)
                  (acc ++ cmdHeader (goTrim cmd) ++ readRes k)).2.2 by
                simp [sshCmdLoop, hb, hw]]
          rw [(ih (k + 1) (acc ++ cmdHeader (goTrim cmd) ++ readRes k)).2]
          constructor
          · intro h j hj hne
            match j with
            | 0 => simpa using hw
            | j + 1 =>
              have := h j (by simpa using hj) (by simpa using hne)
              simpa [Nat.add_assoc, Nat.add_comm 1 j] using this
          · intro h j hj hne
            have := h (j + 1) (by simpa using hj) (by simpa using hne)
            simpa [Nat.add_assoc, Nat.add_comm 1 j] using this
      · refine ⟨⟨?_, ?_⟩, ?_⟩
        · simpa [telnetCmdLoop, hb, hw] using
            (ih (k + 1) (acc ++ cmdHeader (goTrim cmd))).1.1
        · intro j hj hne
          match j with
          | 0 => exact Or.inr (by simp [telnetCmdLoop, hb, hw])
          | j + 1 =>
            have := (ih (k + 1) (acc ++ cmdHeader (goTrim cmd))).1.2 j
              (by simpa using hj) (by simpa using hne)
            rcases this with h | h
            · exact Or.inl (by
                simp only [telnetCmdLoop, hb, hw, Bool.false_eq_true, ite_false,
                  if_false, List.mem_cons]
                right
                simpa [Nat.add_assoc, Nat.add_comm 1 j] using h)
            · exact Or.inr (by
                simp only [telnetCmdLoop, hb, hw, Bool.false_eq_true, ite_false,
                  if_false, List.mem_cons]
                right
                simpa [Nat.add_assoc, Nat.add_comm 1 j] using h)
        · rw [show (sshCmdLoop (fun _ => false) writeOk readRes (cmd :: rest) k acc).2.2
              = some (.writeErr (goTrim cmd)) by simp [sshCmdLoop, hb, hw]]
          constructor
          · intro h
            exact absurd h (by simp)
          · intro h
            have := h 0 (by simp) (by simpa using hb)
            simp only [Nat.add_zero] at this
            exact absurd this (by simp [hw])

/-- Witness for C1: a single non-blank command whose write fails on
the Telnet path still yields no error and leaves its event. -/
theorem c1_write_failure_behavior_witness :
    (telnetCmdLoop (fun _ => false) (fun _ => false) (fun _ => []) ["a".data] 0 []).2.2 = none
    ∧ (CmdEvent.sent 0 ['a']
          ∈ (telnetCmdLoop (fun _ => false) (fun _ => false) (fun _ => []) ["a".data] 0 []).1
        ∨ CmdEvent.writeFailed 0 ['a']
          ∈ (telnetCmdLoop (fun _ => false) (fun _ => false) (fun _ => []) ["a".data] 0 []).1) :=
  ⟨(c1_write_failure_behavior (fun _ => false) (fun _ => []) ["a".data] 0 []).1.1,
   (c1_write_failure_behavior (fun _ => false) (fun _ => []) ["a".data] 0 []).1.2 0
     (by decide) (by decide)⟩

/-- The case-sensitive prompt search succeeds exactly when some prompt
is a substring of the buffer. -/
lemma promptFound_iff (prompts : List GoStr) (buf : GoStr) :
    promptFound prompts buf = true ↔ ∃ p ∈ prompts, p <:+: buf := by
  simp [promptFound, goContains]

/-- The case-insensitive pattern search succeeds exactly when some
lowered pattern is a substring of the lowered buffer. -/
lemma patternFoundCI_iff (patterns : List GoStr) (buf : GoStr) :
    patternFoundCI patterns buf = true ↔ ∃ p ∈ patterns, goToLower p <:+: goToLower buf := by
  simp [patternFoundCI, goContains]

/-- `readUntilPrompt` consumes a run of non-matching chunks whose read
errors are nil or timeout, appending their bytes to the buffer. -/
lemma readUntilPrompt_skip (prompts : List GoStr) :
    ∀ (pre : List Chunk) (fuel i : Nat) (buf : GoStr) (rest : List Chunk),
      (∀ c ∈ pre, c.err = none ∨ c.err = some ReadErr.timeout) →
      (∀ k, k < pre.length →
        promptFound prompts (buf ++ chunksData (pre.take (k + 1))) = false) →
      readUntilPrompt (fun _ => false) prompts (pre.length + fuel) i (pre ++ rest) buf
        = readUntilPrompt (fun _ => false) prompts fuel (i + pre.length) rest
            (buf ++ chunksData pre) := by
  intro pre
  induction pre with
  | nil =>
    intro fuel i buf rest _ _
    simp [chunksData]
  | cons c pre ih =>
    intro fuel i buf rest hpre hno
    have hd0 : promptFound prompts (buf ++ c.data) = false := by
      simpa [chunksData] using hno 0 (by simp)
    have hidx : i + (c :: pre).length = (i + 1) + pre.length := by
      simp only [List.length_cons]
      omega
    have hbuf : buf ++ chunksData (c :: pre) = (buf ++ c.data) ++ chunksData pre := by
      simp [chunksData, List.append_assoc]
    rw [hidx, hbuf]
    have hlen : (c :: pre).length + fuel = (pre.length + fuel) + 1 := by
      simp only [List.length_cons]
      omega
    rw [hlen]
    have hstep : readUntilPrompt (fun _ => false) prompts ((pre.length + fuel) + 1) i
        ((c :: pre) ++ rest) buf
        = readUntilPrompt (fun _ => false) prompts (pre.length + fuel) (i + 1)
            (pre ++ rest) (buf ++ c.data) := by
      rcases hpre c (List.mem_cons_self c pre) with he | he <;>
        simp [readUntilPrompt, hd0, he]
    rw [hstep]
    exact ih fuel (i + 1) (buf ++ c.data) rest
      (fun d hd => hpre d (List.mem_cons_of_mem c hd))
      (fun k hk => by
        have := hno (k + 1) (by simpa using hk)
        simpa [chunksData, List.append_assoc] using this)

/-- `readTelnetOutput` consumes a run of non-matching chunks whose
read errors are nil or timeout, appending their bytes to the
buffer. -/
lemma readTelnetOutput_skip (prompts : List GoStr) :
    ∀ (pre : List Chunk) (fuel : Nat) (buf : GoStr) (rest : List Chunk),
      (∀ c ∈ pre, c.err = none ∨ c.err = some ReadErr.timeout) →
      (∀ k, k < pre.length →
        promptFound prompts (buf ++ chunksData (pre.take (k + 1))) = false) →
      readTelnetOutput prompts (pre.length + fuel) (pre ++ rest) buf
        = readTelnetOutput prompts fuel rest (buf ++ chunksData pre) := by
  intro pre
  induction pre with
  | nil =>
    intro fuel buf rest _ _
    simp [chunksData]
  | cons c pre ih =>
    intro fuel buf rest hpre hno
    have hd0 : promptFound prompts (buf ++ c.data) = false := by
      simpa [chunksData] using hno 0 (by simp)
    have hbuf : buf ++ chunksData (c :: pre) = (buf ++ c.data) ++ chunksData pre := by
      simp [chunksData, List.append_assoc]
    rw [hbuf]
    have hlen : (c :: pre).length + fuel = (pre.length + fuel) + 1 := by
      simp only [List.length_cons]
      omega
    rw [hlen]
    have hstep : readTelnetOutput prompts ((pre.length + fuel) + 1) ((c :: pre) ++ rest) buf
        = readTelnetOutput prompts (pre.length + fuel) (pre ++ rest) (buf ++ c.data) := by
      rcases hpre c (List.mem_cons_self c pre) with he | he <;>
        simp [readTelnetOutput, hd0, he]
    rw [hstep]
    exact ih fuel (buf ++ c.data) rest
      (fun d hd => hpre d (List.mem_cons_of_mem c hd))
      (fun k hk => by
        have := hno (k + 1) (by simpa using hk)
        simpa [chunksData, List.append_assoc] using this)

/-- C5: the prompt search runs over the whole accumulated buffer, not
just the newest chunk: if no prompt occurs while the leading chunks
arrive but a prompt occurs in the accumulation once chunk `ch`
arrives — even one spanning the chunk boundary — `readUntilPrompt`
returns at that read, with the entire accumulated buffer (the matched
prompt text included, nothing trimmed) and no error. -/
theorem c5_whole_buffer_match :
    ∀ (prompts : List GoStr) (pre : List Chunk) (ch : Chunk) (rest : List Chunk) (fuel : Nat),
      (∀ c ∈ pre, c.err = none ∨ c.err = some ReadErr.timeout) →
      (∀ k, k < pre.length → promptFound prompts (chunksData (pre.take (k + 1))) = false) →
      promptFound prompts (chunksData pre ++ ch.data) = true →
      ch.data ≠ [] →
      readUntilPrompt (fun _ => false) prompts (pre.length + (fuel + 1)) 0
          (pre ++ ch :: rest) []
        = (chunksData pre ++ ch.data, none)
      ∧ ∃ p ∈ prompts, p <:+: chunksData pre ++ ch.data := by
  intro prompts pre ch rest fuel hpre hno hm hd
  have hskip := readUntilPrompt_skip prompts pre (fuel + 1) 0 [] (ch :: rest) hpre
    (fun k hk => by simpa using hno k hk)
  refine ⟨?_, (promptFound_iff prompts _).mp hm⟩
  rw [hskip]
  simp only [List.nil_append]
  simp [readUntilPrompt, hd, hm]

/-- Witness for C5: prompt `ab` spans the boundary of chunks `xa` and
`b>`; the match fires at the second read and the whole buffer `xab>`
is returned. -/
theorem c5_whole_buffer_match_witness :
    readUntilPrompt (fun _ => false) ["ab".data] 2 0
        [Chunk.mk "xa".data none, Chunk.mk "b>".data none] []
      = ("xab>".data, none)
    ∧ ∃ p ∈ ["ab".data], p <:+: chunksData [Chunk.mk "xa".data none] ++ "b>".data :=
  c5_whole_buffer_match ["ab".data] [Chunk.mk "xa".data none] (Chunk.mk "b>".data none) [] 0
    (by decide) (by decide) (by decide) (by decide)

/-- C6: end of stream during a read is success with partial data: when
the chunk carrying the EOF error arrives (no prompt having matched),
both `readUntilPrompt` and `readTelnetOutput` return the accumulated
buffer with no error. -/
theorem c6_eof_partial_success :
    ∀ (prompts : List GoStr) (pre : List Chunk) (d : GoStr) (rest : List Chunk) (fuel : Nat),
      (∀ c ∈ pre, c.err = none ∨ c.err = some ReadErr.timeout) →
      (∀ k, k < pre.length → promptFound prompts (chunksData (pre.take (k + 1))) = false) →
      promptFound prompts (chunksData pre ++ d) = false →
      readUntilPrompt (fun _ => false) prompts (pre.length + (fuel + 1)) 0
          (pre ++ Chunk.mk d (some ReadErr.eof) :: rest) []
        = (chunksData pre ++ d, none)
      ∧ readTelnetOutput prompts (pre.length + (fuel + 1))
          (pre ++ Chunk.mk d (some ReadErr.eof) :: rest) []
        = (chunksData pre ++ d, none) := by
  intro prompts pre d rest fuel hpre hno hnm
  have hskip := readUntilPrompt_skip prompts pre (fuel + 1) 0 [] (Chunk.mk d (some .eof) :: rest)
    hpre (fun k hk => by simpa using hno k hk)
  have hskip2 := readTelnetOutput_skip prompts pre (fuel + 1) [] (Chunk.mk d (some .eof) :: rest)
    hpre (fun k hk => by simpa using hno k hk)
  constructor
  · rw [hskip]
    simp only [List.nil_append]
    simp [readUntilPrompt, hnm]
  · rw [hskip2]
    simp only [List.nil_append]
    simp [readTelnetOutput, hnm]

/-- Witness for C6: the device closes the stream right after `llo`
with no prompt ever matching; the partial transcript `hello` is
returned with no error on both paths. -/
theorem c6_eof_partial_success_witness :
    readUntilPrompt (fun _ => false) ["zz".data] 2 0
        [Chunk.mk "he".data (some ReadErr.timeout), Chunk.mk "llo".data (some ReadErr.eof)] []
      = ("hello".data, none)
    ∧ readTelnetOutput ["zz".data] 2
        [Chunk.mk "he".data (some ReadErr.timeout), Chunk.mk "llo".data (some ReadErr.eof)] []
      = ("hello".data, none) :=
  c6_eof_partial_success ["zz".data] [Chunk.mk "he".data (some ReadErr.timeout)]
    "llo".data [] 0 (by decide) (by decide) (by decide)

/-- C7: the single-chunk characterization of the three read loops:
`waitForString` (the Telnet login/password handshake) succeeds exactly
when some pattern occurs in the buffer up to case (both sides
lowered), while the per-command prompt detection of `readUntilPrompt`
and `readTelnetOutput` succeeds exactly when some prompt occurs in the
buffer case-sensitively. -/
theorem c7_case_sensitivity :
    ∀ (patterns prompts : List GoStr) (c : GoStr), c ≠ [] →
      (waitForString patterns 1 [Chunk.mk c none] [] = none
        ↔ ∃ p ∈ patterns, goToLower p <:+: goToLower c)
      ∧ ((readUntilPrompt (fun _ => false) prompts 1 0 [Chunk.mk c none] []).2 = none
        ↔ ∃ p ∈ prompts, p <:+: c)
      ∧ ((readTelnetOutput prompts 1 [Chunk.mk c none] []).2 = none
        ↔ ∃ p ∈ prompts, p <:+: c) := by
  intro patterns prompts c hc
  refine ⟨⟨?_, ?_⟩, ⟨?_, ?_⟩, ⟨?_, ?_⟩⟩
  · intro h
    by_cases hf : patternFoundCI patterns c = true
    · exact (patternFoundCI_iff patterns c).mp hf
    · exfalso
      simp [waitForString, hc, hf] at h
  · intro h
    have hf : patternFoundCI patterns c = true := (patternFoundCI_iff patterns c).mpr h
    simp [waitForString, hc, hf]
  · intro h
    by_cases hf : promptFound prompts c = true
    · exact (promptFound_iff prompts c).mp hf
    · exfalso
      simp [readUntilPrompt, hc, hf] at h
  · intro h
    have hf : promptFound prompts c = true := (promptFound_iff prompts c).mpr h
    simp [readUntilPrompt, hc, hf]
  · intro h
    by_cases hf : promptFound prompts c = true
    · exact (promptFound_iff prompts c).mp hf
    · exfalso
      simp [readTelnetOutput, hc, hf] at h
  · intro h
    have hf : promptFound prompts c = true := (promptFound_iff prompts c).mpr h
    simp [readTelnetOutput, hc, hf]

/-- Witness for C7: the login pattern `SERNAME:` matches the buffer
`Username: ` case-insensitively in `waitForString`, while the same
string used as a command prompt does not match in `readUntilPrompt`
(case-sensitive search). -/
theorem c7_case_sensitivity_witness :
    waitForString ["SERNAME:".data] 1 [Chunk.mk "Username: ".data none] [] = none
    ∧ (readUntilPrompt (fun _ => false) ["SERNAME:".data] 1 0
        [Chunk.mk "Username: ".data none] []).2 ≠ none := by
  have h := c7_case_sensitivity ["SERNAME:".data] ["SERNAME:".data] "Username: ".data
    (by decide)
  exact ⟨h.1.mpr (by decide), fun hcontra => absurd (h.2.1.mp hcontra) (by decide)⟩

end Collector
